import Mathlib

/-!
Verification of the subgen repository's location-resolution engine.

The development shallowly embeds the Python sources:
  - `subgenx/util.py`    (classifier predicates, `Config`)
  - `subgenx/sorcerer.py` (the `Source` resolvers and the `Sorcerer` engine)
  - `subgenx/transcribe.py` (the freshness check guarding transcription)
  - `subgenx/__main__.py` (the top-level batch loop)
  - `subgen.py`          (the legacy single-file variant)

The file system and the external tools (ffmpeg, yt-dlp) are modelled as an
explicit state `FS`; subprocess side effects are recorded as explicit effect
lists.  All definitions are executable and decidable so that every theorem can
be instantiated on concrete inputs.
-/

namespace Subgen

/-! ## Path helpers (modelling `os.path` / `posixpath`) -/

/-- Split a character list at its last `'.'`: returns `some (stem, extWithDot)`
when a dot is present, `none` otherwise. -/
def splitAtLastDot (cs : List Char) : Option (List Char × List Char) :=
  let r := cs.reverse
  if r.any (fun c => c == '.') then
    let afterRev := r.takeWhile (fun c => !(c == '.'))
    let rest := r.drop (afterRev.length + 1)
    some (rest.reverse, '.' :: afterRev.reverse)
  else
    none

/-- The basename of a path: the characters after the last `'/'`
(the whole list when no slash occurs), as in `os.path.basename`. -/
def basenameList (cs : List Char) : List Char :=
  (cs.reverse.takeWhile (fun c => !(c == '/'))).reverse

/-- The directory part of a path, as in `os.path.dirname`: everything up to
and including the last `'/'`, with trailing slashes stripped unless the
result consists only of slashes. -/
def dirnameList (cs : List Char) : List Char :=
  let base := basenameList cs
  let head := cs.take (cs.length - base.length)
  if head ≠ [] ∧ ¬ (head.all (fun c => c == '/')) then
    (head.reverse.dropWhile (fun c => c == '/')).reverse
  else
    head

/-- `os.path.splitext` on character lists: splits off the extension of the
basename, treating leading dots of the basename as part of the stem
(`".bashrc"` has no extension). -/
def splitextList (cs : List Char) : List Char × List Char :=
  let dir := cs.take (cs.length - (basenameList cs).length)
  let base := basenameList cs
  let lead := base.takeWhile (fun c => c == '.')
  let rest := base.drop lead.length
  match splitAtLastDot rest with
  | some (stem, ext) => (dir ++ lead ++ stem, ext)
  | none => (dir ++ base, [])

/-- `os.path.splitext` on strings. -/
def splitext (p : String) : String × String :=
  let r := splitextList p.toList
  (String.mk r.1, String.mk r.2)

/-- `os.path.basename` on strings. -/
def basename (p : String) : String :=
  String.mk (basenameList p.toList)

/-- `os.path.dirname` on strings. -/
def dirname (p : String) : String :=
  String.mk (dirnameList p.toList)

/-- `posixpath.join` for two components: an absolute second component wins;
otherwise a separator is inserted unless the first component is empty or
already ends in a slash. -/
def pathJoinList (a b : List Char) : List Char :=
  match b with
  | '/' :: _ => b
  | _ =>
    if a = [] ∨ a.getLast? = some '/' then a ++ b
    else a ++ '/' :: b

/-- `os.path.join` on strings (POSIX semantics, two components). -/
def pathJoin (a b : String) : String :=
  String.mk (pathJoinList a.toList b.toList)

/-- ASCII lowercasing of a character list, modelling `str.lower()` on the
ASCII strings handled here. -/
def toLowerList (cs : List Char) : List Char :=
  cs.map Char.toLower

/-! ## URL parsing (modelling `urllib.parse.urlparse` netloc extraction) -/

/-- The characters CPython's `urlsplit` accepts inside a scheme. -/
def schemeChars : List Char :=
  "abcdefghijklmnopqrstuvwxyzABCDEFGHIJKLMNOPQRSTUVWXYZ0123456789+-.".toList

/-- Modelling the scheme-splitting step of `urllib.parse.urlsplit`: when the
input has a `':'` at a positive position, starts with an ASCII letter, and
everything before the colon is a scheme character, drop the scheme and the
colon; otherwise the input is unchanged.  (Control-character stripping done by
recent CPython versions is not modelled; all inputs of interest are plain.) -/
def removeScheme (cs : List Char) : List Char :=
  match cs.findIdx? (fun c => c == ':') with
  | none => cs
  | some i =>
    if 0 < i ∧ (cs.headD ' ').isAlpha ∧ (cs.take i).all (fun c => schemeChars.contains c) then
      cs.drop (i + 1)
    else cs

/-- The `netloc` component of `urllib.parse.urlparse`: present only when the
remainder after the scheme starts with `"//"`, and extending to the next
`'/'`, `'?'` or `'#'`. -/
def urlNetloc (cs : List Char) : List Char :=
  match removeScheme cs with
  | '/' :: '/' :: r => r.takeWhile (fun c => !(c == '/' || c == '?' || c == '#'))
  | _ => []

/-- Python's `needle in hay` substring test on character lists. -/
def hasSub (hay needle : List Char) : Bool :=
  (List.range (hay.length + 1)).any (fun i => needle.isPrefixOf (hay.drop i))

/-! ## Classifier (`subgenx/util.py`) -/

/-- The known video-hosting domains of `is_youtube_url` (`subgenx/util.py`). -/
def youtube_domains : List (List Char) :=
  ["youtube.com".toList, "youtu.be".toList]

/-- Embeds `is_youtube_url` (`subgenx/util.py`): parse the URL, lowercase the
netloc, and test whether any known domain occurs in it as a substring. -/
def is_youtube_url (url : String) : Bool :=
  let netloc := toLowerList (urlNetloc url.toList)
  youtube_domains.any (fun domain => hasSub netloc domain)

/-- Follows the spec's words (§4.1): RemoteVideo requires the parsed host to
equal, or be a subdomain of, a known video-hosting domain.  Declared only to
compare the spec's condition with the code's `is_youtube_url`. -/
def specHostIsVideoDomain (netloc : List Char) : Bool :=
  youtube_domains.any (fun domain => netloc == domain || ('.' :: domain).isSuffixOf netloc)

/-! ## File-system state

The OS state the Python code consults: which paths are regular files, which
are directories, their last-modified timestamps, the flattened full-path file
enumeration `os.walk` produces under a directory, and the file name the
external yt-dlp download produces for a URL. -/

structure FS where
  files : List String
  dirs : List String
  mtime : String → Nat
  walk : String → List String
  ytDownload : String → String

/-- `os.path.isfile`. -/
def FS.isFile (fs : FS) (p : String) : Bool := fs.files.contains p

/-- `os.path.isdir`. -/
def FS.isDir (fs : FS) (p : String) : Bool := fs.dirs.contains p

/-- `os.path.exists`. -/
def FS.pathExists (fs : FS) (p : String) : Bool := fs.isFile p || fs.isDir p

/-! ## Config (`subgenx/util.py`) -/

/-- Embeds the `Config` dataclass of `subgenx/util.py`. -/
structure Config where
  base_cmd : List String
  locations : List String
  force : Bool
  download_dir : Option String
  output_dir : Option String
  audio_track : Option Nat
  yt_video : Bool
  model : String
  output_format : String
  device : Option String
  language : Option String
  compute_type : Option String

/-- Replace the `force` flag of a `Config`, keeping every other field. -/
def setForce (c : Config) (b : Bool) : Config :=
  ⟨c.base_cmd, c.locations, b, c.download_dir, c.output_dir, c.audio_track,
   c.yt_video, c.model, c.output_format, c.device, c.language, c.compute_type⟩

/-- The audio-extension allow-list of `is_audio_ext` in `subgen.py`. -/
def audioExtensions : List String :=
  [".mp3", ".m4a", ".wav", ".flac", ".aac", ".ogg"]

/-- The video-extension allow-list of `is_video_ext` in `subgen.py`. -/
def videoExtensions : List String :=
  [".mp4", ".mkv", ".avi", ".mov"]

/-- Embeds `is_audio_ext` (`subgen.py`): case-insensitive membership of the
extension in the audio allow-list. -/
def is_audio_ext (ext : String) : Bool :=
  audioExtensions.contains (String.mk (toLowerList ext.toList))

/-- Embeds `is_video_ext` (`subgen.py`). -/
def is_video_ext (ext : String) : Bool :=
  videoExtensions.contains (String.mk (toLowerList ext.toList))

/-- Modelled from the spec: `is_audio_file` is imported by `subgenx/sorcerer.py`
from `subgenx.util` but is absent from that file's source.  Spec §4.1 defines
the LocalAudio category as "an existing regular file whose extension is in a
fixed allow-list of audio container formats", case-insensitively (§8); the
allow-list is taken from the sibling variant `subgen.py` (`is_audio_ext`). -/
def is_audio_file (fs : FS) (path : String) : Bool :=
  fs.isFile path && is_audio_ext (splitext path).2

/-- Modelled from the spec: `is_video_file` is imported by `subgenx/sorcerer.py`
from `subgenx.util` but is absent from that file's source.  Spec §4.1 defines
the LocalVideo category as an existing regular file whose extension is in a
fixed allow-list of video container formats; the allow-list is taken from the
sibling variant `subgen.py` (`is_video_ext`). -/
def is_video_file (fs : FS) (path : String) : Bool :=
  fs.isFile path && is_video_ext (splitext path).2

/-! ## Freshness gate (spec §4.4)

The timestamp-comparison policy that appears inline in `VideoSource.handle`
(`subgenx/sorcerer.py`) and `transcribe_with_whisperx`
(`subgenx/transcribe.py` and `subgen.py`). -/

/-- The Freshness Gate of spec §4.4: `true` ("reuse") iff the derived artifact
exists and its last-modified timestamp strictly exceeds the source's. -/
def freshnessGate (fs : FS) (src derived : String) : Bool :=
  fs.pathExists derived && decide (fs.mtime src < fs.mtime derived)

/-! ## Resolvers (`subgenx/sorcerer.py`) -/

/-- The `str | list[str]` half of a `Source.handle` result: a single audio
file, or further locations to enqueue. -/
inductive SourceResult where
  | singleFile (p : String)
  | moreLocations (ls : List String)
  deriving DecidableEq, Repr

/-- Embeds `AudioSource.can_handle`. -/
def AudioSource.can_handle (fs : FS) (cfg : Config) (location : String) : Bool :=
  is_audio_file fs location

/-- Embeds `AudioSource.handle`: an audio file is returned as is. -/
def AudioSource.handle (fs : FS) (cfg : Config) (location : String) : String :=
  location

/-- Embeds `VideoSource.can_handle`. -/
def VideoSource.can_handle (fs : FS) (cfg : Config) (location : String) : Bool :=
  is_video_file fs location

/-- Embeds `VideoSource.handle`: the mp3 sibling path is returned; when it
already exists with a strictly newer mtime it is reused, otherwise ffmpeg is
invoked to produce it.  The subprocess invocation is modelled by the second
component: `true` iff the ffmpeg transcode ran. -/
def VideoSource.handle (fs : FS) (cfg : Config) (location : String) : String × Bool :=
  let base := (splitext location).1
  let mp3_path := base ++ ".mp3"
  if fs.pathExists mp3_path && decide (fs.mtime location < fs.mtime mp3_path) then
    (mp3_path, false)
  else
    (mp3_path, true)

/-- Embeds `YoutubeSource.can_handle`. -/
def YoutubeSource.can_handle (fs : FS) (cfg : Config) (location : String) : Bool :=
  is_youtube_url location

/-- Embeds `YoutubeSource.handle`: the external yt-dlp download is modelled by
the `FS.ytDownload` oracle giving the produced audio file name. -/
def YoutubeSource.handle (fs : FS) (cfg : Config) (location : String) : String :=
  fs.ytDownload location

/-- Embeds `DirectorySource.can_handle`. -/
def DirectorySource.can_handle (fs : FS) (cfg : Config) (location : String) : Bool :=
  fs.isDir location

/-- Embeds `DirectorySource.handle`: recursively collect every walked file that
is audio or video; a singleton collection is returned as a single file (a
string), anything else (including the empty collection) as further
locations. -/
def DirectorySource.handle (fs : FS) (cfg : Config) (location : String) : SourceResult :=
  let audio_files := (fs.walk location).filter
    (fun full_path => is_audio_file fs full_path || is_video_file fs full_path)
  match audio_files with
  | [f] => SourceResult.singleFile f
  | l => SourceResult.moreLocations l

/-- A resolver as the engine sees it: the `can_handle` predicate and the
`handle` action.  `handle` returns the optional result (`none` embeds Python's
`None`) paired with the list of video files transcoded as a side effect. -/
structure Source where
  can_handle : FS → Config → String → Bool
  handle : FS → Config → String → Option SourceResult × List String

/-- `AudioSource()` as a `Source`. -/
def audioSource : Source :=
  ⟨AudioSource.can_handle,
   fun fs cfg loc => (some (SourceResult.singleFile (AudioSource.handle fs cfg loc)), [])⟩

/-- `VideoSource()` as a `Source`; the transcode effect is recorded. -/
def videoSource : Source :=
  ⟨VideoSource.can_handle,
   fun fs cfg loc =>
     let r := VideoSource.handle fs cfg loc
     (some (SourceResult.singleFile r.1), if r.2 then [loc] else [])⟩

/-- `YoutubeSource()` as a `Source`. -/
def youtubeSource : Source :=
  ⟨YoutubeSource.can_handle,
   fun fs cfg loc => (some (SourceResult.singleFile (YoutubeSource.handle fs cfg loc)), [])⟩

/-- `DirectorySource()` as a `Source`. -/
def directorySource : Source :=
  ⟨DirectorySource.can_handle,
   fun fs cfg loc => (some (DirectorySource.handle fs cfg loc), [])⟩

/-- The resolver list built in `Sorcerer.__init__`, in source order. -/
def sorcererSources : List Source :=
  [audioSource, videoSource, youtubeSource, directorySource]

/-- Embeds the `for source in self.sources` loop of
`Sorcerer._handle_single_location`: the first source whose `can_handle` is
true runs; a `None` handle result falls through to the next source
(`continue`), accumulating any side effects already performed. -/
def runSources (fs : FS) (cfg : Config) (loc : String) :
    List Source → Option SourceResult × List String
  | [] => (none, [])
  | s :: rest =>
    if s.can_handle fs cfg loc then
      match s.handle fs cfg loc with
      | (none, effs) =>
        let r := runSources fs cfg loc rest
        (r.1, effs ++ r.2)
      | (some res, effs) => (some res, effs)
    else runSources fs cfg loc rest

/-- Embeds `Sorcerer._handle_single_location` over the fixed source list. -/
def handleSingleLocation (fs : FS) (cfg : Config) (loc : String) :
    Option SourceResult × List String :=
  runSources fs cfg loc sorcererSources

/-! ## Resolution engine (`Sorcerer.handle_location`) -/

/-- Embeds the worklist loop of `Sorcerer.handle_location`: pop the front of
the queue, append a single-file result to `results`, extend the queue with a
further-locations result, drop a `None` result.  `fuel` bounds the number of
loop iterations, modelling the loop's potential nontermination (symlink
cycles); `none` means the fuel ran out before the queue drained.  The second
component of a success accumulates the transcode side effects in order. -/
def drainQueue (fs : FS) (cfg : Config) :
    Nat → List String → List String → List String → Option (List String × List String)
  | _, [], results, effs => some (results, effs)
  | 0, _ :: _, _, _ => none
  | fuel + 1, loc :: rest, results, effs =>
    match handleSingleLocation fs cfg loc with
    | (none, e) => drainQueue fs cfg fuel rest results (effs ++ e)
    | (some (SourceResult.singleFile p), e) =>
      drainQueue fs cfg fuel rest (results ++ [p]) (effs ++ e)
    | (some (SourceResult.moreLocations ls), e) =>
      drainQueue fs cfg fuel (rest ++ ls) results (effs ++ e)

/-- Embeds `Sorcerer.handle_location`: drain the worklist seeded with the one
location, then return `results if results else None`.  The outer `Option` is
fuel exhaustion; the inner `Option` is Python's `None` return. -/
def handle_location (fs : FS) (cfg : Config) (fuel : Nat) (loc : String) :
    Option (Option (List String) × List String) :=
  (drainQueue fs cfg fuel [loc] [] []).map
    (fun r => ((if r.1 = [] then none else some r.1), r.2))

/-! ## Top-level batch loop (`subgenx/__main__.py`) -/

/-- Embeds the location loop of `main` in `subgenx/__main__.py`: for each
location in order, extend the collected file paths with a successful
resolution, and record the location as warned-about ("Could not handle
location") when `handle_location` returns `None`.  The result is `none` when
any drain ran out of fuel. -/
def collectLocations (fs : FS) (cfg : Config) (fuel : Nat) :
    List String → Option (List String × List String)
  | [] => some ([], [])
  | loc :: rest =>
    match handle_location fs cfg fuel loc, collectLocations fs cfg fuel rest with
    | some (some r, _), some (fps, warns) => some (r ++ fps, warns)
    | some (none, _), some (fps, warns) => some (fps, loc :: warns)
    | _, _ => none

/-! ## Legacy variant (`subgen.py`) -/

/-- Embeds `add_file` (`subgen.py` `main`): a single file contributes itself
when its extension is audio or video, and nothing otherwise. -/
def add_file (file : String) : List String :=
  if is_audio_ext (splitext file).2 || is_video_ext (splitext file).2 then [file] else []

/-- Embeds `convert_to_mp3` (`subgen.py`): audio files pass through; video
files resolve to the mp3 sibling, reused when strictly newer, transcoded by
ffmpeg otherwise (second component `true` iff ffmpeg ran); any other extension
raises `ValueError`, embedded as `none`. -/
def convert_to_mp3 (fs : FS) (input_path : String) : Option (String × Bool) :=
  let base := (splitext input_path).1
  let ext := (splitext input_path).2
  if is_audio_ext ext then
    some (input_path, false)
  else if is_video_ext ext then
    let mp3_path := base ++ ".mp3"
    if fs.pathExists mp3_path && decide (fs.mtime input_path < fs.mtime mp3_path) then
      some (mp3_path, false)
    else
      some (mp3_path, true)
  else
    none

/-! ## Transcription step (`subgenx/transcribe.py`) -/

/-- The subtitle output path computed by `transcribe_with_whisperx`
(`subgenx/transcribe.py`): `output_dir or os.path.dirname(audio_path)` joined
with `base_name + "." + output_format`.  Python's `or` treats the empty string
as falsy. -/
def transcribeOutputFile (cfg : Config) (audio_path : String) : String :=
  let output_dir :=
    match cfg.output_dir with
    | some s => if s = "" then dirname audio_path else s
    | none => dirname audio_path
  let base_name := (splitext (basename audio_path)).1
  pathJoin output_dir (base_name ++ "." ++ cfg.output_format)

/-- Embeds the early-return decision of `transcribe_with_whisperx`
(`subgenx/transcribe.py`): `true` iff transcription is skipped, i.e. the
output file exists with a strictly newer mtime and `force` is unset. -/
def transcribeSkips (fs : FS) (cfg : Config) (audio_path : String) : Bool :=
  let output_file := transcribeOutputFile cfg audio_path
  (fs.pathExists output_file && decide (fs.mtime audio_path < fs.mtime output_file))
    && !cfg.force

/-! ## Concrete states used as test inputs -/

/-- A representative configuration (the CLI defaults of `subgenx/__main__.py`
with no locations). -/
def exampleConfig : Config :=
  ⟨["whisperx"], [], false, none, none, none, false, "small", "srt", none, none, none⟩

/-- A directory `d` holding two video files sharing a base name, so both
resolve to the same mp3 path. -/
def dupFS : FS :=
  ⟨["d/v.mp4", "d/v.avi"], ["d"], fun _ => 0,
   fun p => if p = "d" then ["d/v.mp4", "d/v.avi"] else [], fun _ => ""⟩

/-- A directory `d` holding exactly one video file. -/
def loneFS : FS :=
  ⟨["d/v.mp4"], ["d"], fun _ => 0,
   fun p => if p = "d" then ["d/v.mp4"] else [], fun _ => ""⟩

/-- A directory `d` holding no compatible files at all. -/
def emptyDirFS : FS :=
  ⟨[], ["d"], fun _ => 0, fun _ => [], fun _ => ""⟩

/-- A video file `v.mp4` whose mp3 sibling already exists and is strictly
newer. -/
def freshMp3FS : FS :=
  ⟨["v.mp4", "v.mp3"], [], fun p => if p = "v.mp3" then 2 else 1,
   fun _ => [], fun _ => ""⟩

/-- A video file `v.mp4` with no mp3 sibling. -/
def noMp3FS : FS :=
  ⟨["v.mp4"], [], fun _ => 1, fun _ => [], fun _ => ""⟩

/-! ## General lemmas -/

/-- `hasSub` agrees with list-infix containment. -/
lemma hasSub_substring_iff (hay needle : List Char) :
    hasSub hay needle = true ↔ needle <:+: hay := by
  constructor
  · intro h
    rcases List.any_eq_true.mp h with ⟨i, _, hp⟩
    have hpre := List.isPrefixOf_iff_prefix.mp hp
    exact List.infix_iff_prefix_suffix.mpr ⟨hay.drop i, hpre, List.drop_suffix i hay⟩
  · intro h
    rcases h with ⟨s, t, rfl⟩
    apply List.any_eq_true.mpr
    refine ⟨s.length, List.mem_range.mpr ?_, ?_⟩
    · have : s.length ≤ (s ++ needle ++ t).length := by
        simp [List.length_append]
      omega
    · have hd : (s ++ needle ++ t).drop s.length = needle ++ t := by
        rw [List.append_assoc]
        exact List.drop_left s (needle ++ t)
      rw [hd]
      exact List.isPrefixOf_iff_prefix.mpr (List.prefix_append needle t)

/-- `collectLocations` distributes over list append (when both halves have
enough fuel). -/
lemma collectLocations_append (fs : FS) (cfg : Config) (fuel : Nat) :
    ∀ xs ys, collectLocations fs cfg fuel (xs ++ ys) =
      (match collectLocations fs cfg fuel xs, collectLocations fs cfg fuel ys with
       | some (f1, w1), some (f2, w2) => some (f1 ++ f2, w1 ++ w2)
       | _, _ => none) := by
  intro xs ys
  induction xs with
  | nil =>
    simp only [List.nil_append, collectLocations]
    match collectLocations fs cfg fuel ys with
    | some (f2, w2) => rfl
    | none => rfl
  | cons loc rest ih =>
    simp only [List.cons_append, collectLocations, ih]
    rcases hl : handle_location fs cfg fuel loc with _ | ⟨_ | r, e⟩ <;>
      rcases hr : collectLocations fs cfg fuel rest with _ | ⟨f1, w1⟩ <;>
      rcases hy : collectLocations fs cfg fuel ys with _ | ⟨f2, w2⟩ <;>
      simp [ih, hr, hy, List.append_assoc]

/-- Whatever a drain returns extends the result accumulator on the right:
earlier discoveries stay in front. -/
lemma drainQueue_results_prefix (fs : FS) (cfg : Config) :
    ∀ fuel queue results effs final,
      drainQueue fs cfg fuel queue results effs = some final →
      ∃ tail, final.1 = results ++ tail := by
  intro fuel
  induction fuel with
  | zero =>
    intro queue results effs final h
    match queue, h with
    | [], h =>
      simp only [drainQueue, Option.some.injEq] at h
      exact ⟨[], by rw [← h]; simp⟩
  | succ n ih =>
    intro queue results effs final h
    match queue, h with
    | [], h =>
      simp only [drainQueue, Option.some.injEq] at h
      exact ⟨[], by rw [← h]; simp⟩
    | loc :: rest, h =>
      simp only [drainQueue] at h
      match hs : handleSingleLocation fs cfg loc, h with
      | (none, e), h =>
        exact ih rest results (effs ++ e) final h
      | (some (SourceResult.singleFile p), e), h =>
        rcases ih rest (results ++ [p]) (effs ++ e) final h with ⟨tail, ht⟩
        exact ⟨[p] ++ tail, by rw [ht]; simp⟩
      | (some (SourceResult.moreLocations ls), e), h =>
        exact ih (rest ++ ls) results (effs ++ e) final h

/-- A video file `a.mp3`-to-`a.srt` pair with identical timestamps. -/
def eqMtimeFS : FS :=
  ⟨["a.mp3", "a.srt"], [], fun _ => 5, fun _ => [], fun _ => ""⟩

/-- `VideoSource.handle` always computes the mp3 sibling path and runs ffmpeg
exactly when the freshness gate says regenerate. -/
lemma VideoSource_handle_eq (fs : FS) (cfg : Config) (loc : String) :
    VideoSource.handle fs cfg loc =
      ((splitext loc).1 ++ ".mp3", !freshnessGate fs loc ((splitext loc).1 ++ ".mp3")) := by
  by_cases h : (fs.pathExists ((splitext loc).1 ++ ".mp3")
      && decide (fs.mtime loc < fs.mtime ((splitext loc).1 ++ ".mp3"))) = true <;>
    simp [VideoSource.handle, freshnessGate, h]

/-- `_handle_single_location` on an existing video file (that is not audio):
the video source wins and yields the mp3 sibling, transcoding exactly when the
freshness gate says regenerate. -/
lemma handleSingle_video (fs : FS) (cfg : Config) (loc : String)
    (h1 : is_audio_file fs loc = false) (h2 : is_video_file fs loc = true) :
    handleSingleLocation fs cfg loc =
      (some (SourceResult.singleFile ((splitext loc).1 ++ ".mp3")),
       if freshnessGate fs loc ((splitext loc).1 ++ ".mp3") then [] else [loc]) := by
  cases hg : freshnessGate fs loc ((splitext loc).1 ++ ".mp3") <;>
    simp [handleSingleLocation, sorcererSources, runSources, audioSource, videoSource,
      AudioSource.can_handle, VideoSource.can_handle, h1, h2, VideoSource_handle_eq, hg]

/-- `_handle_single_location` on a directory that no earlier source accepts:
the directory source wins with no side effects. -/
lemma handleSingle_dir (fs : FS) (cfg : Config) (d : String)
    (h1 : is_audio_file fs d = false) (h2 : is_video_file fs d = false)
    (h3 : is_youtube_url d = false) (hd : fs.isDir d = true) :
    handleSingleLocation fs cfg d = (some (DirectorySource.handle fs cfg d), []) := by
  simp [handleSingleLocation, sorcererSources, runSources, audioSource, videoSource,
    youtubeSource, directorySource, AudioSource.can_handle, VideoSource.can_handle,
    YoutubeSource.can_handle, DirectorySource.can_handle, h1, h2, h3, hd]

/-! ## Claims -/

/-- C1, counterexample: `https://xyoutube.com/watch` is classified as a
YouTube URL by `is_youtube_url`, although its parsed host `xyoutube.com`
neither equals nor is a subdomain of `youtube.com` or `youtu.be`; the
classifier does a substring test on the netloc, not a host-equality test. -/
theorem yt_substring_counterexample :
    is_youtube_url "https://xyoutube.com/watch" = true ∧
    specHostIsVideoDomain (toLowerList (urlNetloc "https://xyoutube.com/watch".toList)) = false := by
  decide

/-- C1, amended: `is_youtube_url` classifies a URL as a remote video iff a
known video-hosting domain occurs as a substring of the lowercased parsed
netloc (the host component); every URL whose host equals or is a subdomain of
a known domain is therefore classified, and a URL whose path merely contains
the domain name as text, such as `https://example.com/youtube.com/video`,
is not. -/
theorem yt_netloc_substring_classification :
    (∀ url : String, is_youtube_url url = true ↔
      ∃ d ∈ youtube_domains, d <:+: toLowerList (urlNetloc url.toList)) ∧
    (∀ url : String,
      specHostIsVideoDomain (toLowerList (urlNetloc url.toList)) = true →
      is_youtube_url url = true) ∧
    is_youtube_url "https://example.com/youtube.com/video" = false := by
  refine ⟨?_, ?_, by decide⟩
  · intro url
    simp only [is_youtube_url, List.any_eq_true]
    constructor
    · rintro ⟨d, hd, hsub⟩
      exact ⟨d, hd, (hasSub_substring_iff _ _).mp hsub⟩
    · rintro ⟨d, hd, hinf⟩
      exact ⟨d, hd, (hasSub_substring_iff _ _).mpr hinf⟩
  · intro url h
    simp only [specHostIsVideoDomain, List.any_eq_true] at h
    rcases h with ⟨d, hd, hcond⟩
    simp only [is_youtube_url, List.any_eq_true]
    refine ⟨d, hd, ?_⟩
    simp only [Bool.or_eq_true] at hcond
    rcases hcond with heq | hsuf
    · have heq' : toLowerList (urlNetloc url.toList) = d := by
        simpa using heq
      rw [heq']
      exact (hasSub_substring_iff _ _).mpr (List.infix_refl d)
    · have h1 : ('.' :: d) <:+ toLowerList (urlNetloc url.toList) :=
        List.isSuffixOf_iff_suffix.mp hsuf
      have h2 : d <:+ ('.' :: d) := List.suffix_cons '.' d
      exact (hasSub_substring_iff _ _).mpr (List.IsSuffix.isInfix (h2.trans h1))

/-- Witness for the amended C1 theorem at a concrete subdomain URL. -/
theorem yt_netloc_substring_classification_witness :
    specHostIsVideoDomain (toLowerList (urlNetloc "https://www.youtube.com/watch".toList)) = true ∧
    is_youtube_url "https://www.youtube.com/watch" = true :=
  ⟨by decide,
   yt_netloc_substring_classification.2.1 "https://www.youtube.com/watch" (by decide)⟩

/-- C2, counterexample: the directory `d` of `emptyDirFS` contains no
compatible files; the directory resolver handles it (an empty
further-locations result, not `None`), yet `handle_location` collapses the
empty drain to `None` and the top-level loop therefore reports `d` as
could-not-handle (it lands in the warned list with zero resolved files). -/
theorem empty_directory_reported_unhandled :
    DirectorySource.handle emptyDirFS exampleConfig "d" = SourceResult.moreLocations [] ∧
    handle_location emptyDirFS exampleConfig 2 "d" = some (none, []) ∧
    collectLocations emptyDirFS exampleConfig 2 ["d"] = some ([], ["d"]) := by
  decide

/-- C2, amended: the directory resolver itself never declines a directory —
`_handle_single_location` of a directory always yields a result, an empty
further-locations list when the walk finds nothing compatible — but
`handle_location` collapses a drain that produced zero files to `None`, so the
top-level loop does report such a directory as could-not-handle. -/
theorem directory_resolver_total_but_engine_conflates :
    (∀ (fs : FS) (cfg : Config) (d : String), fs.isDir d = true →
      (handleSingleLocation fs cfg d).1 ≠ none) ∧
    (∀ (fs : FS) (cfg : Config) (d : String),
      is_audio_file fs d = false → is_video_file fs d = false → is_youtube_url d = false →
      fs.isDir d = true →
      (fs.walk d).filter (fun p => is_audio_file fs p || is_video_file fs p) = [] →
      handleSingleLocation fs cfg d = (some (SourceResult.moreLocations []), [])) ∧
    (∀ (fs : FS) (cfg : Config) (fuel : Nat) (d : String) (effs : List String),
      handle_location fs cfg fuel d = some (none, effs) →
      collectLocations fs cfg fuel [d] = some ([], [d])) := by
  refine ⟨?_, ?_, ?_⟩
  · intro fs cfg d hd
    simp only [handleSingleLocation, sorcererSources, runSources,
      audioSource, videoSource, youtubeSource, directorySource]
    split_ifs <;> simp_all [DirectorySource.can_handle]
  · intro fs cfg d h1 h2 h3 hd hwalk
    simp [handleSingleLocation, sorcererSources, runSources,
      audioSource, videoSource, youtubeSource, directorySource,
      AudioSource.can_handle, VideoSource.can_handle, YoutubeSource.can_handle,
      DirectorySource.can_handle, DirectorySource.handle,
      h1, h2, h3, hd, hwalk]
  · intro fs cfg fuel d effs h
    simp only [collectLocations, h]

/-- Witness for the amended C2 theorem on the concrete empty directory. -/
theorem directory_resolver_total_but_engine_conflates_witness :
    handleSingleLocation emptyDirFS exampleConfig "d" =
      (some (SourceResult.moreLocations []), []) ∧
    collectLocations emptyDirFS exampleConfig 2 ["d"] = some ([], ["d"]) :=
  ⟨directory_resolver_total_but_engine_conflates.2.1 emptyDirFS exampleConfig "d"
     (by decide) (by decide) (by decide) (by decide) (by decide),
   directory_resolver_total_but_engine_conflates.2.2 emptyDirFS exampleConfig 2 "d" []
     (by decide)⟩

/-- C3, counterexample: for the existing video file `v.mp4`, the local-file
video resolver does not return the file's path unchanged — it resolves to the
derived `v.mp3` — and when no fresh mp3 exists the ffmpeg transcode runs
during resolution itself (recorded effect `["v.mp4"]`), not in a later
orchestrator step. -/
theorem video_resolver_transcodes_counterexample :
    (VideoSource.handle freshMp3FS exampleConfig "v.mp4").1 ≠ "v.mp4" ∧
    handle_location freshMp3FS exampleConfig 1 "v.mp4" = some (some ["v.mp3"], []) ∧
    handle_location noMp3FS exampleConfig 1 "v.mp4" = some (some ["v.mp3"], ["v.mp4"]) := by
  decide

/-- C3, amended: in the `subgenx` variant the video resolver resolves an
existing local video file to its derived mp3 sibling path (not the original
path), performing the ffmpeg audio extraction during resolution itself,
skipped exactly when a derived audio copy strictly newer than the video
already exists; only the legacy `subgen.py` variant returns the path unchanged
at collection time (`add_file`) and defers the extraction to the orchestrator's
per-file `convert_to_mp3` step under the same freshness gate. -/
theorem video_resolver_returns_mp3 :
    (∀ (fs : FS) (cfg : Config) (loc : String),
      VideoSource.handle fs cfg loc =
        ((splitext loc).1 ++ ".mp3", !freshnessGate fs loc ((splitext loc).1 ++ ".mp3"))) ∧
    (∀ (fs : FS) (cfg : Config) (loc : String),
      is_audio_file fs loc = false → is_video_file fs loc = true →
      handle_location fs cfg 1 loc =
        some (some [(splitext loc).1 ++ ".mp3"],
          if freshnessGate fs loc ((splitext loc).1 ++ ".mp3") then [] else [loc])) ∧
    (∀ (fs : FS) (loc : String),
      is_audio_ext (splitext loc).2 = false → is_video_ext (splitext loc).2 = true →
      add_file loc = [loc] ∧
      convert_to_mp3 fs loc =
        some ((splitext loc).1 ++ ".mp3", !freshnessGate fs loc ((splitext loc).1 ++ ".mp3"))) := by
  refine ⟨VideoSource_handle_eq, ?_, ?_⟩
  · intro fs cfg loc h1 h2
    simp only [handle_location, drainQueue, handleSingleLocation, sorcererSources,
      runSources, audioSource, videoSource, youtubeSource, directorySource,
      AudioSource.can_handle, VideoSource.can_handle, h1, h2, VideoSource_handle_eq]
    by_cases h : freshnessGate fs loc ((splitext loc).1 ++ ".mp3") = true <;>
      simp [h]
  · intro fs loc h1 h2
    constructor
    · simp [add_file, h1, h2]
    · by_cases h : (fs.pathExists ((splitext loc).1 ++ ".mp3")
          && decide (fs.mtime loc < fs.mtime ((splitext loc).1 ++ ".mp3"))) = true <;>
        simp [convert_to_mp3, freshnessGate, h1, h2, h]

/-- Witness for the amended C3 theorem at the concrete video file without a
derived mp3. -/
theorem video_resolver_returns_mp3_witness :
    handle_location noMp3FS exampleConfig 1 "v.mp4" =
      some (some [(splitext "v.mp4").1 ++ ".mp3"],
        if freshnessGate noMp3FS "v.mp4" ((splitext "v.mp4").1 ++ ".mp3") then []
        else ["v.mp4"]) :=
  video_resolver_returns_mp3.2.1 noMp3FS exampleConfig "v.mp4" (by decide) (by decide)

/-- C4: the freshness gate returns reuse iff the derived artifact exists and
its mtime strictly exceeds the source's (equal mtimes regenerate), and this is
exactly the decision taken at the two code sites — the video-to-mp3 reuse
check of `VideoSource.handle` and, when `force` is unset, the skip decision of
`transcribe_with_whisperx`. -/
theorem freshness_gate_strict :
    ∀ (fs : FS) (cfg : Config) (src derived loc path : String),
      (freshnessGate fs src derived = true ↔
        fs.pathExists derived = true ∧ fs.mtime src < fs.mtime derived) ∧
      (fs.mtime derived = fs.mtime src → freshnessGate fs src derived = false) ∧
      ((VideoSource.handle fs cfg loc).2 =
        !freshnessGate fs loc ((splitext loc).1 ++ ".mp3")) ∧
      (cfg.force = false →
        transcribeSkips fs cfg path = freshnessGate fs path (transcribeOutputFile cfg path)) := by
  intro fs cfg src derived loc path
  refine ⟨?_, ?_, ?_, ?_⟩
  · simp [freshnessGate]
  · intro h
    simp [freshnessGate, h]
  · rw [VideoSource_handle_eq fs cfg loc]
  · intro h
    simp [transcribeSkips, freshnessGate, h]

/-- Witness for C4: the gate reuses the strictly newer `v.mp3`, regenerates at
equal timestamps, and is the transcription-skip decision under the default
(non-force) configuration. -/
theorem freshness_gate_strict_witness :
    freshnessGate freshMp3FS "v.mp4" "v.mp3" = true ∧
    freshnessGate eqMtimeFS "a.mp3" "a.srt" = false ∧
    transcribeSkips freshMp3FS exampleConfig "v.mp4" =
      freshnessGate freshMp3FS "v.mp4" (transcribeOutputFile exampleConfig "v.mp4") :=
  ⟨(freshness_gate_strict freshMp3FS exampleConfig "v.mp4" "v.mp3" "x" "x").1.mpr
     (by constructor <;> decide),
   (freshness_gate_strict eqMtimeFS exampleConfig "a.mp3" "a.srt" "x" "x").2.1 rfl,
   (freshness_gate_strict freshMp3FS exampleConfig "x" "x" "x" "v.mp4").2.2.2 rfl⟩

/-- C5: setting `force` in `Config` makes the transcription step never skip
(the gate is overridden to regenerate at transcription time only), while the
video-to-audio transcode reuse decision of `VideoSource.handle` is unaffected
by `force` — an up-to-date derived mp3 is still reused. -/
theorem force_overrides_transcription_only :
    ∀ (fs : FS) (cfg : Config) (path loc : String),
      transcribeSkips fs (setForce cfg true) path = false ∧
      VideoSource.handle fs (setForce cfg true) loc =
        VideoSource.handle fs (setForce cfg false) loc ∧
      (freshnessGate fs loc ((splitext loc).1 ++ ".mp3") = true →
        (VideoSource.handle fs (setForce cfg true) loc).2 = false) := by
  intro fs cfg path loc
  refine ⟨?_, rfl, ?_⟩
  · simp [transcribeSkips, setForce]
  · intro h
    rw [VideoSource_handle_eq fs (setForce cfg true) loc]
    simp [h]

/-- Witness for C5: with `force` set, the up-to-date subtitle would still be
regenerated while the fresh `v.mp3` is still reused by the transcode step. -/
theorem force_overrides_transcription_only_witness :
    transcribeSkips freshMp3FS (setForce exampleConfig true) "v.mp4" = false ∧
    (VideoSource.handle freshMp3FS (setForce exampleConfig true) "v.mp4").2 = false :=
  ⟨(force_overrides_transcription_only freshMp3FS exampleConfig "v.mp4" "v.mp4").1,
   (force_overrides_transcription_only freshMp3FS exampleConfig "v.mp4" "v.mp4").2.2
     (by decide)⟩


/-- C6: the resolvers are consulted in the fixed priority order audio file,
video file, remote URL, directory (the list built in `Sorcerer.__init__`), and
the result of the first source whose `can_handle` predicate is true is the one
`_handle_single_location` returns — later sources are not consulted. -/
theorem sources_priority_order :
    ∀ (fs : FS) (cfg : Config) (loc : String),
      sorcererSources = [audioSource, videoSource, youtubeSource, directorySource] ∧
      handleSingleLocation fs cfg loc =
        (match sorcererSources.find? (fun s => s.can_handle fs cfg loc) with
         | some s => s.handle fs cfg loc
         | none => (none, [])) := by
  intro fs cfg loc
  refine ⟨rfl, ?_⟩
  simp only [handleSingleLocation, sorcererSources, runSources, List.find?]
  cases h1 : audioSource.can_handle fs cfg loc <;>
    cases h2 : videoSource.can_handle fs cfg loc <;>
      cases h3 : youtubeSource.can_handle fs cfg loc <;>
        cases h4 : directorySource.can_handle fs cfg loc <;>
          simp [h1, h2, h3, h4, audioSource, videoSource, youtubeSource, directorySource]

/-- C7: `handle_location` processes a FIFO worklist seeded with the location:
a dequeued single-file result is appended to the results (discovery order), a
further-locations result is appended to the back of the queue, earlier results
always stay in front of later ones, and duplicate paths are kept — the
directory of `dupFS`, holding `v.mp4` and `v.avi`, resolves to `d/v.mp3`
twice. -/
theorem worklist_fifo_order :
    (∀ (fs : FS) (cfg : Config) (fuel : Nat) (loc : String)
       (queue results effs e : List String) (p : String),
      handleSingleLocation fs cfg loc = (some (SourceResult.singleFile p), e) →
      drainQueue fs cfg (fuel + 1) (loc :: queue) results effs =
        drainQueue fs cfg fuel queue (results ++ [p]) (effs ++ e)) ∧
    (∀ (fs : FS) (cfg : Config) (fuel : Nat) (loc : String)
       (queue results effs e ls : List String),
      handleSingleLocation fs cfg loc = (some (SourceResult.moreLocations ls), e) →
      drainQueue fs cfg (fuel + 1) (loc :: queue) results effs =
        drainQueue fs cfg fuel (queue ++ ls) results (effs ++ e)) ∧
    (∀ (fs : FS) (cfg : Config) (fuel : Nat) (queue results effs : List String)
       (final : List String × List String),
      drainQueue fs cfg fuel queue results effs = some final →
      ∃ tail, final.1 = results ++ tail) ∧
    handle_location dupFS exampleConfig 3 "d" =
      some (some ["d/v.mp3", "d/v.mp3"], ["d/v.mp4", "d/v.avi"]) := by
  refine ⟨?_, ?_, ?_, by decide⟩
  · intro fs cfg fuel loc queue results effs e p h
    simp [drainQueue, h]
  · intro fs cfg fuel loc queue results effs e ls h
    simp [drainQueue, h]
  · intro fs cfg fuel queue results effs final h
    exact drainQueue_results_prefix fs cfg fuel queue results effs final h

/-- Witness for C7 at a concrete single-file step. -/
theorem worklist_fifo_order_witness :
    drainQueue noMp3FS exampleConfig 1 ["v.mp4"] [] [] =
      drainQueue noMp3FS exampleConfig 0 [] ["v.mp3"] ["v.mp4"] :=
  worklist_fifo_order.1 noMp3FS exampleConfig 0 "v.mp4" [] [] [] ["v.mp4"] "v.mp3"
    (by decide)

/-- C8: a location that no resolver can handle is recorded in the warned list,
contributes nothing to the resolved files, and does not stop the batch: the
locations before and after it are still resolved and contribute exactly their
own results. -/
theorem batch_continues_past_unresolvable :
    ∀ (fs : FS) (cfg : Config) (fuel : Nat) (pre post : List String) (bad : String)
      (fps1 w1 fps2 w2 : List String),
      (handleSingleLocation fs cfg bad).1 = none →
      0 < fuel →
      collectLocations fs cfg fuel pre = some (fps1, w1) →
      collectLocations fs cfg fuel post = some (fps2, w2) →
      collectLocations fs cfg fuel (pre ++ bad :: post) =
        some (fps1 ++ fps2, w1 ++ bad :: w2) := by
  intro fs cfg fuel pre post bad fps1 w1 fps2 w2 hbad hfuel hpre hpost
  obtain ⟨n, rfl⟩ : ∃ n, fuel = n + 1 := ⟨fuel - 1, by omega⟩
  rcases hs : handleSingleLocation fs cfg bad with ⟨r, e⟩
  rw [hs] at hbad
  have hr : r = none := hbad
  subst hr
  have hb : handle_location fs cfg (n + 1) bad = some (none, e) := by
    simp [handle_location, drainQueue, hs]
  rw [collectLocations_append fs cfg (n + 1) pre (bad :: post), hpre]
  have hbp : collectLocations fs cfg (n + 1) (bad :: post) = some (fps2, bad :: w2) := by
    simp [collectLocations, hb, hpost]
  rw [hbp]

/-- Witness for C8: a batch with an unresolvable middle location still
resolves its first and last locations. -/
theorem batch_continues_past_unresolvable_witness :
    collectLocations loneFS exampleConfig 2 (["d"] ++ "nope" :: ["d/v.mp4"]) =
      some (["d/v.mp4"] ++ ["d/v.mp3"], [] ++ "nope" :: []) :=
  batch_continues_past_unresolvable loneFS exampleConfig 2 ["d"] ["d/v.mp4"] "nope"
    ["d/v.mp4"] [] ["d/v.mp3"] [] (by decide) (by decide) (by decide) (by decide)

/-- C9: a directory whose walk yields exactly one compatible file resolves to
that file's path as a single-file result: the file is appended to the results
unchanged, never re-enqueued, and so a lone video file bypasses the video
resolver's transcode step (no effects); with two or more files each is
re-enqueued and the video resolver transcodes them to their mp3 siblings. -/
theorem lone_file_directory_single :
    ∀ (fs : FS) (cfg : Config) (d f f1 f2 : String),
      is_audio_file fs d = false → is_video_file fs d = false → is_youtube_url d = false →
      fs.isDir d = true →
      (((fs.walk d).filter (fun p => is_audio_file fs p || is_video_file fs p) = [f] →
        handle_location fs cfg 1 d = some (some [f], [])) ∧
      ((fs.walk d).filter (fun p => is_audio_file fs p || is_video_file fs p) = [f1, f2] →
        is_audio_file fs f1 = false → is_video_file fs f1 = true →
        freshnessGate fs f1 ((splitext f1).1 ++ ".mp3") = false →
        is_audio_file fs f2 = false → is_video_file fs f2 = true →
        freshnessGate fs f2 ((splitext f2).1 ++ ".mp3") = false →
        handle_location fs cfg 3 d =
          some (some [(splitext f1).1 ++ ".mp3", (splitext f2).1 ++ ".mp3"], [f1, f2]))) := by
  intro fs cfg d f f1 f2 h1 h2 h3 hd
  constructor
  · intro hwalk
    have hds := handleSingle_dir fs cfg d h1 h2 h3 hd
    rw [DirectorySource.handle] at hds
    rw [hwalk] at hds
    simp only [handle_location, drainQueue, hds]
    simp
  · intro hwalk ha1 hv1 hg1 ha2 hv2 hg2
    have hds := handleSingle_dir fs cfg d h1 h2 h3 hd
    rw [DirectorySource.handle] at hds
    rw [hwalk] at hds
    have hf1 := handleSingle_video fs cfg f1 ha1 hv1
    rw [hg1] at hf1
    have hf2 := handleSingle_video fs cfg f2 ha2 hv2
    rw [hg2] at hf2
    simp only [handle_location, drainQueue, hds, hf1, hf2]
    simp

/-- Witness for C9 on the concrete one-video directory. -/
theorem lone_file_directory_single_witness :
    handle_location loneFS exampleConfig 1 "d" = some (some ["d/v.mp4"], []) :=
  (lone_file_directory_single loneFS exampleConfig "d" "d/v.mp4" "x" "x"
    (by decide) (by decide) (by decide) (by decide)).1 (by decide)

/-- C10: `handle_location` never returns an empty Python list: it returns
`None` exactly when the fully drained worklist produced zero resolved files
and a non-empty list otherwise, so its caller cannot distinguish an
unresolvable location from a handled location that yielded no files —
concretely, the empty directory `d` and the unrecognized string `nope` both
come back as `None`. -/
theorem handle_location_never_empty :
    ∀ (fs : FS) (cfg : Config) (fuel : Nat) (loc : String) (effs res : List String),
      (handle_location fs cfg fuel loc ≠ some (some [], effs)) ∧
      (handle_location fs cfg fuel loc = some (none, effs) ↔
        drainQueue fs cfg fuel [loc] [] [] = some ([], effs)) ∧
      (handle_location fs cfg fuel loc = some (some res, effs) → res ≠ []) ∧
      handle_location emptyDirFS exampleConfig 2 "d" = some (none, []) ∧
      handle_location emptyDirFS exampleConfig 2 "nope" = some (none, []) := by
  intro fs cfg fuel loc effs res
  refine ⟨?_, ?_, ?_, by decide, by decide⟩
  · rcases hd : drainQueue fs cfg fuel [loc] [] [] with _ | ⟨rs, es⟩
    · simp [handle_location, hd]
    · by_cases hrs : rs = [] <;> simp [handle_location, hd, hrs]
  · rcases hd : drainQueue fs cfg fuel [loc] [] [] with _ | ⟨rs, es⟩
    · simp [handle_location, hd]
    · by_cases hrs : rs = [] <;> simp [handle_location, hd, hrs]
  · intro h
    rcases hd : drainQueue fs cfg fuel [loc] [] [] with _ | ⟨rs, es⟩
    · simp [handle_location, hd] at h
    · by_cases hrs : rs = []
      · simp [handle_location, hd, hrs] at h
      · simp [handle_location, hd, hrs] at h
        rcases h with ⟨h1, h2⟩
        subst h1
        exact hrs

/-- Witness for C10: the lone-video directory resolves to a non-empty list. -/
theorem handle_location_never_empty_witness :
    handle_location loneFS exampleConfig 1 "d" = some (some ["d/v.mp4"], []) ∧
    (["d/v.mp4"] : List String) ≠ [] :=
  ⟨by decide,
   (handle_location_never_empty loneFS exampleConfig 1 "d" [] ["d/v.mp4"]).2.2.1 (by decide)⟩

end Subgen
